import Mathlib

/-!
Verification development for the per-thread event-loop core of the proxy
(dispatcher, deferred-delete queue, cross-thread post queue, timer subsystem,
timer-value conversion) and for the buffering stream decoder of the
integration-test utilities.

The dispatcher/timer implementation files are not part of the sources at hand
(only their tests are), so those components are modelled from the
specification, with the observable behaviour pinned by the tests in
src/test/common/event/dispatcher_impl_test.cc.  The buffering stream decoder
is embedded directly from src/test/integration/utility.cc.
-/

namespace EventCore

/-! ## Deferred-delete queue -/

mutual
/-- Modelled from the spec: one action performed by the destructor of a
deferred-deletable item (the implementation of `DeferredDeletable` draining is
missing from the sources; §4.3 of the spec and the `DeferredDeleteTest`
scenario describe it).  A destructor may ring an observer bell, enqueue a
further deferred-deletable item, or call `clearDeferredDeleteList` inline. -/
inductive Act : Type where
  | ring : Nat → Act
  | deferItem : Item → Act
  | clear : Act

/-- Modelled from the spec: a deferred-deletable item, identified by a tag and
carrying the list of actions its destructor performs when it runs. -/
inductive Item : Type where
  | mk : Nat → List Act → Item
end

/-- The identifying tag of an item. -/
def Item.tag : Item → Nat
  | .mk t _ => t

/-- The destructor body of an item. -/
def Item.dtor : Item → List Act
  | .mk _ acts => acts

/-- Modelled from the spec: the observable state of the dispatcher's
deferred-delete queue.  `current` is the live list of enqueued items (in
enqueue order), `deleting` is true exactly while a `clearDeferredDeleteList`
pass is running its destructor chain, `destroyed` logs the tags of destroyed
items in destruction order, and `bells` logs the bells rung by destructors. -/
structure DState : Type where
  current : List Item
  deleting : Bool
  destroyed : List Nat
  bells : List Nat

/-- Modelled from the spec: `deferredDelete` transfers ownership of an item
into the queue, appending it to the live list (§4.1). -/
def deferredDelete (i : Item) (s : DState) : DState :=
  { s with current := s.current ++ [i] }

/-- Modelled from the spec: the effect of one destructor action.  Destructor
actions run only while a clear pass is in progress (`deleting = true`), and a
reentrant `clearDeferredDeleteList` call made during a clear pass destroys
nothing (§4.3 and §8: the inline clear call does nothing); the reentrancy
guard is therefore inlined here as the identity.  The lemma
`clear_noop_while_deleting` below shows this agrees with applying
`clearDeferredDeleteList` itself to any mid-destruction state. -/
def destroyAct (a : Act) (s : DState) : DState :=
  match a with
  | .ring b => { s with bells := s.bells ++ [b] }
  | .deferItem i => deferredDelete i s
  | .clear => s

/-- Run a destructor body, action by action. -/
def destroyActs : List Act → DState → DState
  | [], s => s
  | a :: rest, s => destroyActs rest (destroyAct a s)

/-- Destroy one item: log its tag, then run its destructor body. -/
def destroyItem (i : Item) (s : DState) : DState :=
  destroyActs i.dtor { s with destroyed := s.destroyed ++ [i.tag] }

/-- Destroy a batch of items in order. -/
def destroyItems : List Item → DState → DState
  | [], s => s
  | i :: rest, s => destroyItems rest (destroyItem i s)

/-- Modelled from the spec: `clearDeferredDeleteList` (§4.1, §4.3).  If a
clear pass is already running, or the list is empty, the call is a no-op.
Otherwise the live list is swapped with an empty one before iterating, the
deleting flag is set for the duration of the destructor chain, and exactly the
swapped-out batch is destroyed, in order. -/
def clearDeferredDeleteList (s : DState) : DState :=
  if s.deleting then s
  else if s.current.isEmpty then s
  else
    let s1 := destroyItems s.current { s with current := [], deleting := true }
    { s1 with deleting := false }

/-- The initial, empty deferred-delete queue. -/
def initialDState : DState :=
  { current := [], deleting := false, destroyed := [], bells := [] }

/-- Scenario item A: its destructor rings bell 1. -/
def itemA : Item := .mk 1 [.ring 1]

/-- Scenario item C: its destructor rings bell 3. -/
def itemC : Item := .mk 3 [.ring 3]

/-- Scenario item B: its destructor rings bell 2, enqueues item C, and calls
`clearDeferredDeleteList` inline. -/
def itemB : Item := .mk 2 [.ring 2, .deferItem itemC, .clear]

/-- The generation scenario of `DeferredDeleteTest.DeferredDelete`, after
enqueuing A and clearing once. -/
def scenario1 : DState := clearDeferredDeleteList (deferredDelete itemA initialDState)

/-- The scenario after then enqueuing B and clearing again (B's destructor
rings bell 2, enqueues C, and calls the clear inline). -/
def scenario2 : DState := clearDeferredDeleteList (deferredDelete itemB scenario1)

/-- The scenario after one further clear. -/
def scenario3 : DState := clearDeferredDeleteList scenario2

/-! ## Cross-thread post queue -/

/-- Modelled from the spec: one action performed by a posted callback while it
runs (or while its captured state is destroyed immediately after the run): ring
an observer bell, or re-entrantly `post` a further callback, itself given as
its list of actions (§4.4; the dispatcher implementation is missing from the
sources). -/
inductive PAct : Type where
  | ring : Nat → PAct
  | post : List PAct → PAct

/-- A posted callback, represented by the list of actions it performs. -/
abbrev PCb : Type := List PAct

/-- Modelled from the spec: the observable state of the cross-thread post
queue.  `queue` is the mutex-guarded FIFO of pending callbacks in submission
order; `log` records the bells rung by executed callbacks, in execution
order. -/
structure PostState : Type where
  queue : List PCb
  log : List Nat

/-- Modelled from the spec: `post` appends the callback to the FIFO (§4.1);
it never executes the callback itself. -/
def postCb (f : PCb) (s : PostState) : PostState :=
  { s with queue := s.queue ++ [f] }

/-- The effect of one action of a running callback. -/
def runPAct (a : PAct) (s : PostState) : PostState :=
  match a with
  | .ring n => { s with log := s.log ++ [n] }
  | .post f => postCb f s

/-- Run one callback, action by action. -/
def runPActs : List PAct → PostState → PostState
  | [], s => s
  | a :: rest, s => runPActs rest (runPAct a s)

/-- Invoke each callback of a drained batch, in order, outside the lock. -/
def runBatch : List PCb → PostState → PostState
  | [], s => s
  | f :: rest, s => runBatch rest (runPActs f s)

/-- Modelled from the spec: the critical section of the drain — under the
lock, swap out the entire current queue into a local batch, leaving the live
queue empty, and release the lock (§4.4).  Returns the batch and the state as
it is at lock release. -/
def drainSwap (s : PostState) : List PCb × PostState :=
  (s.queue, { s with queue := [] })

/-- Modelled from the spec: one drain performed by a loop iteration — the
locked swap followed by invoking the batch outside the lock (§4.4). -/
def drain (s : PostState) : PostState :=
  runBatch (drainSwap s).1 (drainSwap s).2

/-- The bells a callback rings directly, in order. -/
def ringsOf (f : PCb) : List Nat :=
  f.filterMap fun a => match a with | .ring n => some n | .post _ => none

/-- The callbacks a callback re-entrantly posts, in order. -/
def postsOf (f : PCb) : List PCb :=
  f.filterMap fun a => match a with | .post g => some g | .ring _ => none

/-! ## Timer subsystem -/

/-- Modelled from the spec: the observable state of one timer together with
the loop's monotonic clock (§4.2; the timer implementation is missing from the
sources).  `fired` counts the invocations of the timer's callback. -/
structure TimerState : Type where
  now : Nat
  enabled : Bool
  deadline : Nat
  fired : Nat
  deriving DecidableEq

/-- Modelled from the spec: `createTimer` allocates a new, initially-disabled
timer with no side effects until enabled (§4.1), at clock time `n`. -/
def createTimer (n : Nat) : TimerState :=
  { now := n, enabled := false, deadline := 0, fired := 0 }

/-- Modelled from the spec: `enableTimer d` arms the timer, computing
`deadline = now + d`; enabling an already-armed timer re-arms it to the new
deadline, discarding the old one (§4.2). -/
def enableTimer (d : Nat) (s : TimerState) : TimerState :=
  { s with enabled := true, deadline := s.now + d }

/-- Modelled from the spec: `disableTimer` disarms the timer (§4.2). -/
def disableTimer (s : TimerState) : TimerState :=
  { s with enabled := false }

/-- Modelled from the spec: the timer servicing performed by one loop pass
(§4.2, §5).  If the timer is armed and its deadline has been reached, the
timer is transitioned to disabled and its invocation is counted *before* the
user callback `cb` runs, so the callback observes a not-armed timer; otherwise
nothing happens.  `cb` receives the state as the callback sees it and may
itself re-arm or disarm the timer. -/
def runOnePass (cb : TimerState → TimerState) (s : TimerState) : TimerState :=
  if s.enabled ∧ s.deadline ≤ s.now then
    cb { s with enabled := false, fired := s.fired + 1 }
  else s

/-- A concrete armed timer whose deadline has been reached, used as a witness
state. -/
def timerW : TimerState :=
  { now := 10, enabled := true, deadline := 10, fired := 0 }

/-! ## Timer-value conversion -/

/-- The largest representable millisecond count
(`std::chrono::milliseconds::max()`, a signed 64-bit value). -/
def maxMilliseconds : Nat := 2 ^ 63 - 1

/-- Modelled from the spec: `TimerUtils::millisecondsToTimeval` (§4.5) —
`seconds = duration / 1000`, `microseconds = (duration % 1000) * 1000`,
division first so that no intermediate value exceeds the representable range.
Returns the (seconds, microseconds) pair of the produced timeval. -/
def millisecondsToTimeval (d : Nat) : Nat × Nat :=
  (d / 1000, d % 1000 * 1000)

/-! ## Dispatcher stats -/

/-- The series name produced for one dispatcher histogram: the caller's
prefix, then the fixed component "dispatcher.", then the series suffix. -/
def statName (pfx sfx : String) : String :=
  pfx ++ "dispatcher." ++ sfx

/-- Modelled from the spec: `initializeStats(scope, prefix)` registers two
histogram series on the scope (§4.1, §6); the test
`DispatcherImplTest.InitializeStats` pins the produced names — the
implementation inserts "dispatcher." between the caller's prefix and the
suffixes `loop_duration_us` and `poll_delay_us`.  Returns the list of
registered series names, in registration order. -/
def initializeStats (pfx : String) : List String :=
  [statName pfx "loop_duration_us", statName pfx "poll_delay_us"]

end EventCore

namespace IntegrationUtil

/-! ## BufferingStreamDecoder, embedded from src/test/integration/utility.cc -/

/-- The state of a `BufferingStreamDecoder`: the completion flag, the buffered
headers (abstracted to a tag), the buffered body, and the number of times the
on-complete callback has been invoked. -/
structure DecoderState : Type where
  complete : Bool
  headers : Option Nat
  body : String
  cbCount : Nat
  deriving DecidableEq

/-- `BufferingStreamDecoder::onComplete`: asserts `complete_` and invokes the
on-complete callback (counted here); a violated assertion is `none`. -/
def onComplete (s : DecoderState) : Option DecoderState :=
  if s.complete then some { s with cbCount := s.cbCount + 1 } else none

/-- `BufferingStreamDecoder::decodeHeaders`: asserts `!complete_`, sets
`complete_ = end_stream`, stores the headers, and calls `onComplete` when now
complete; a violated assertion is `none`. -/
def decodeHeaders (hd : Nat) (endStream : Bool) (s : DecoderState) : Option DecoderState :=
  if s.complete then none
  else
    let s1 := { s with complete := endStream, headers := some hd }
    if endStream then onComplete s1 else some s1

/-- `BufferingStreamDecoder::decodeData`: asserts `!complete_`, sets
`complete_ = end_stream`, appends the data to the body, and calls `onComplete`
when now complete; a violated assertion is `none`. -/
def decodeData (d : String) (endStream : Bool) (s : DecoderState) : Option DecoderState :=
  if s.complete then none
  else
    let s1 := { s with complete := endStream, body := s.body ++ d }
    if endStream then onComplete s1 else some s1

/-- One call made to the decoder. -/
inductive DecodeEv : Type where
  | headers : Nat → Bool → DecodeEv
  | data : String → Bool → DecodeEv
  deriving DecidableEq

/-- Dispatch one decoder call. -/
def stepEv (e : DecodeEv) (s : DecoderState) : Option DecoderState :=
  match e with
  | .headers hd es => decodeHeaders hd es s
  | .data d es => decodeData d es s

/-- Run a sequence of decoder calls; `none` as soon as an assertion is
violated. -/
def runEvents : List DecodeEv → DecoderState → Option DecoderState
  | [], s => some s
  | e :: rest, s =>
    match stepEv e s with
    | none => none
    | some s1 => runEvents rest s1

/-- A freshly constructed decoder: not complete, nothing buffered, callback
never invoked. -/
def initDecoder : DecoderState :=
  { complete := false, headers := none, body := "", cbCount := 0 }

end IntegrationUtil

namespace EventCore

/-! ## Deferred-delete queue: lemmas and claims -/

/-- A destructor action never touches the destruction log. -/
theorem destroyAct_destroyed (a : Act) (s : DState) :
    (destroyAct a s).destroyed = s.destroyed := by
  cases a <;> simp [destroyAct, deferredDelete]

/-- A destructor action never touches the deleting flag. -/
theorem destroyAct_deleting (a : Act) (s : DState) :
    (destroyAct a s).deleting = s.deleting := by
  cases a <;> simp [destroyAct, deferredDelete]

/-- Running a destructor body never touches the destruction log. -/
theorem destroyActs_destroyed (l : List Act) (s : DState) :
    (destroyActs l s).destroyed = s.destroyed := by
  induction l generalizing s with
  | nil => rfl
  | cons a rest ih => simp [destroyActs, ih, destroyAct_destroyed]

/-- Running a destructor body never touches the deleting flag. -/
theorem destroyActs_deleting (l : List Act) (s : DState) :
    (destroyActs l s).deleting = s.deleting := by
  induction l generalizing s with
  | nil => rfl
  | cons a rest ih => simp [destroyActs, ih, destroyAct_deleting]

/-- Destroying a batch appends exactly the batch's tags, in order, to the
destruction log. -/
theorem destroyItems_destroyed (l : List Item) (s : DState) :
    (destroyItems l s).destroyed = s.destroyed ++ l.map Item.tag := by
  induction l generalizing s with
  | nil => simp [destroyItems]
  | cons i rest ih =>
    simp [destroyItems, destroyItem, ih, destroyActs_destroyed]

/-- Destroying a batch never touches the deleting flag. -/
theorem destroyItems_deleting (l : List Item) (s : DState) :
    (destroyItems l s).deleting = s.deleting := by
  induction l generalizing s with
  | nil => rfl
  | cons i rest ih => simp [destroyItems, destroyItem, ih, destroyActs_deleting]

/-- A `clearDeferredDeleteList` call entered while a clear pass is already
running (the deleting flag set) is a no-op. -/
theorem clear_noop_while_deleting (s : DState) (h : s.deleting = true) :
    clearDeferredDeleteList s = s := by
  unfold clearDeferredDeleteList
  simp [h]

/-- A top-level `clearDeferredDeleteList` call destroys exactly the items
pending at entry, in order. -/
theorem clearDDL_destroyed (s : DState) (h : s.deleting = false) :
    (clearDeferredDeleteList s).destroyed = s.destroyed ++ s.current.map Item.tag := by
  unfold clearDeferredDeleteList
  simp only [h, Bool.false_eq_true, if_false]
  split
  · next hemp =>
    have : s.current = [] := by
      cases hc : s.current with
      | nil => rfl
      | cons a l => rw [hc] at hemp; simp [List.isEmpty] at hemp
    simp [this]
  · simp [destroyItems_destroyed]

/-- A top-level `clearDeferredDeleteList` call leaves the deleting flag
cleared. -/
theorem clearDDL_deleting (s : DState) (h : s.deleting = false) :
    (clearDeferredDeleteList s).deleting = false := by
  unfold clearDeferredDeleteList
  simp only [h, Bool.false_eq_true, if_false]
  split
  · exact h
  · rfl

/-- C1 counterexample: the claim quantifies over every `clearDeferredDeleteList`
call, including one made from inside a destructor running during another
clear.  This is the state at which the inline nested clear of
`DeferredDeleteTest.DeferredDelete` is entered: item C (tag 3) was enqueued via
`deferredDelete` before the nested call was entered, yet the nested call
destroys nothing at all — the destruction log and the bells are unchanged and
C stays pending. -/
theorem nested_clear_destroys_nothing_cex :
    clearDeferredDeleteList
        { current := [itemC], deleting := true, destroyed := [1, 2], bells := [1, 2] }
      = { current := [itemC], deleting := true, destroyed := [1, 2], bells := [1, 2] } ∧
    ({ current := [itemC], deleting := true, destroyed := [1, 2], bells := [1, 2] } :
        DState).current ≠ [] := by
  exact ⟨rfl, by simp⟩

/-- C1 (amended): every `clearDeferredDeleteList` call entered outside an
in-progress clear pass destroys exactly the items enqueued before it was
entered, in order; it returns with the deleting flag cleared; and the items
enqueued during its destructor chain are preserved, undestroyed, and are
exactly what the following call destroys. -/
theorem clear_destroys_exactly_prior_generation (s : DState) (h : s.deleting = false) :
    (clearDeferredDeleteList s).destroyed = s.destroyed ++ s.current.map Item.tag ∧
    (clearDeferredDeleteList s).deleting = false ∧
    (clearDeferredDeleteList (clearDeferredDeleteList s)).destroyed
      = s.destroyed ++ s.current.map Item.tag
        ++ (clearDeferredDeleteList s).current.map Item.tag := by
  refine ⟨clearDDL_destroyed s h, clearDDL_deleting s h, ?_⟩
  rw [clearDDL_destroyed (clearDeferredDeleteList s) (clearDDL_deleting s h),
    clearDDL_destroyed s h]

/-- Witness for C1 at the concrete state with item A pending. -/
theorem clear_destroys_exactly_prior_generation_witness :
    (deferredDelete itemA initialDState).deleting = false ∧
    ((clearDeferredDeleteList (deferredDelete itemA initialDState)).destroyed
        = (deferredDelete itemA initialDState).destroyed
          ++ (deferredDelete itemA initialDState).current.map Item.tag ∧
      (clearDeferredDeleteList (deferredDelete itemA initialDState)).deleting = false ∧
      (clearDeferredDeleteList
          (clearDeferredDeleteList (deferredDelete itemA initialDState))).destroyed
        = (deferredDelete itemA initialDState).destroyed
          ++ (deferredDelete itemA initialDState).current.map Item.tag
          ++ (clearDeferredDeleteList (deferredDelete itemA initialDState)).current.map
              Item.tag) :=
  ⟨rfl, clear_destroys_exactly_prior_generation (deferredDelete itemA initialDState) rfl⟩

/-- C2: the concrete generation scenario of `DeferredDeleteTest.DeferredDelete`.
After enqueuing A and clearing, bell 1 has rung.  After enqueuing B and
clearing, bell 2 has rung but bell 3 has not — the inline nested clear
destroyed nothing, and C is still pending.  One further clear rings bell 3. -/
theorem deferred_delete_bell_scenario :
    scenario1.bells = [1] ∧
    scenario2.bells = [1, 2] ∧
    scenario2.current = [itemC] ∧
    scenario2.destroyed = [1, 2] ∧
    scenario3.bells = [1, 2, 3] ∧
    scenario3.destroyed = [1, 2, 3] :=
  ⟨rfl, rfl, rfl, rfl, rfl, rfl⟩

/-- C8: `clearDeferredDeleteList` on an empty queue is a no-op, and
`disableTimer` on an already-disabled timer changes nothing and causes no
firing on a subsequent loop pass. -/
theorem empty_clear_and_disabled_disable_noop (s : DState) (t : TimerState)
    (h1 : s.current = []) (h2 : t.enabled = false) :
    clearDeferredDeleteList s = s ∧
    disableTimer t = t ∧
    runOnePass id (disableTimer t) = disableTimer t := by
  refine ⟨?_, ?_, ?_⟩
  · unfold clearDeferredDeleteList
    simp [h1]
  · cases t
    simp only [TimerState.mk.injEq] at h2 ⊢
    simp [disableTimer, h2]
  · simp [runOnePass, disableTimer]

/-! ## Cross-thread post queue: lemmas and claims -/

/-- Running one callback appends exactly its re-entrant posts to the queue and
exactly its bells to the log, both in the callback's own order. -/
theorem runPActs_spec (f : PCb) (s : PostState) :
    runPActs f s = { queue := s.queue ++ postsOf f, log := s.log ++ ringsOf f } := by
  induction f generalizing s with
  | nil => simp [runPActs, postsOf, ringsOf]
  | cons a rest ih =>
    cases a with
    | ring n => simp [runPActs, runPAct, ih, postsOf, ringsOf]
    | post g => simp [runPActs, runPAct, postCb, ih, postsOf, ringsOf]

/-- Running a drained batch appends each callback's re-entrant posts to the
queue and each callback's bells to the log, batch order preserved. -/
theorem runBatch_spec (batch : List PCb) (s : PostState) :
    runBatch batch s
      = { queue := s.queue ++ (batch.map postsOf).flatten,
          log := s.log ++ (batch.map ringsOf).flatten } := by
  induction batch generalizing s with
  | nil => simp [runBatch]
  | cons f rest ih => simp [runBatch, runPActs_spec, ih]

/-- C3: a callback submitted via `post` is executed by the next drain exactly
once — the drain's log extension is precisely the concatenation of the bells
of the queued callbacks, in submission order, with the newly posted callback's
bells appearing exactly once, after those of every callback submitted before
it. -/
theorem post_runs_once_in_submission_order (s : PostState) (f : PCb) :
    (drain (postCb f s)).log = s.log ++ ((s.queue.map ringsOf).flatten ++ ringsOf f) ∧
    (drain s).log = s.log ++ (s.queue.map ringsOf).flatten := by
  constructor
  · simp [drain, drainSwap, postCb, runBatch_spec]
  · simp [drain, drainSwap, runBatch_spec]

/-- C4: the drain is the locked whole-queue swap followed by invoking the
batch outside the lock: the live queue is empty at lock release, every
callback re-entrantly posted during the batch (also by destruction of captured
state, modelled as trailing post actions) lands in the live queue, in order,
rather than being lost, and the following drain executes exactly those
callbacks. -/
theorem drain_swap_then_run_reentrant_post_safe (s : PostState) :
    drain s = runBatch (drainSwap s).1 (drainSwap s).2 ∧
    (drainSwap s).2.queue = [] ∧
    (drain s).queue = (s.queue.map postsOf).flatten ∧
    (drain (drain s)).log
      = s.log ++ (s.queue.map ringsOf).flatten
          ++ ((s.queue.map postsOf).flatten.map ringsOf).flatten := by
  refine ⟨rfl, rfl, ?_, ?_⟩
  · simp [drain, drainSwap, runBatch_spec]
  · simp [drain, drainSwap, runBatch_spec]

/-! ## Timer subsystem: claims -/

/-- C5: when an armed timer's deadline is reached, the loop pass disables the
timer (and counts the firing) before invoking the callback, so the callback
observes a not-armed timer; a callback that re-arms the timer produces a
freshly armed timer with the new deadline, and a later pass at that deadline
fires it again. -/
theorem timer_disabled_before_callback_runs (cb : TimerState → TimerState) (d : Nat)
    (s : TimerState) (h1 : s.enabled = true) (h2 : s.deadline ≤ s.now) :
    runOnePass cb s = cb { s with enabled := false, fired := s.fired + 1 } ∧
    ({ s with enabled := false, fired := s.fired + 1 } : TimerState).enabled = false ∧
    (runOnePass (enableTimer d) s).enabled = true ∧
    (runOnePass (enableTimer d) s).deadline = s.now + d ∧
    (runOnePass id { runOnePass (enableTimer d) s with now := s.now + d }).fired
      = s.fired + 2 := by
  refine ⟨?_, rfl, ?_, ?_, ?_⟩
  · simp [runOnePass, h1, h2]
  · simp [runOnePass, enableTimer, h1, h2]
  · simp [runOnePass, enableTimer, h1, h2]
  · simp [runOnePass, enableTimer, h1, h2]

/-- Witness for C5 at a concrete due timer and the identity callback. -/
theorem timer_disabled_before_callback_runs_witness :
    timerW.enabled = true ∧ timerW.deadline ≤ timerW.now ∧
    (runOnePass id timerW = id { timerW with enabled := false, fired := timerW.fired + 1 } ∧
      ({ timerW with enabled := false, fired := timerW.fired + 1 } : TimerState).enabled
        = false ∧
      (runOnePass (enableTimer 5) timerW).enabled = true ∧
      (runOnePass (enableTimer 5) timerW).deadline = timerW.now + 5 ∧
      (runOnePass id { runOnePass (enableTimer 5) timerW with now := timerW.now + 5 }).fired
        = timerW.fired + 2) :=
  ⟨rfl, by decide, timer_disabled_before_callback_runs id 5 timerW rfl (by decide)⟩

/-- C6: a freshly created timer is not enabled; `enableTimer 0` makes it
enabled without invoking the callback synchronously; one loop pass then fires
it exactly once and leaves it not enabled; re-enabling an armed timer re-arms
it to the new deadline, the discarded deadline produces no firing, and the new
deadline produces exactly one. -/
theorem timer_enable_disable_lifecycle (n d1 d2 : Nat) (s : TimerState) (h : d1 < d2) :
    (createTimer n).enabled = false ∧
    (enableTimer 0 s).enabled = true ∧
    (enableTimer 0 s).fired = s.fired ∧
    (runOnePass id (enableTimer 0 (createTimer n))).fired = 1 ∧
    (runOnePass id (enableTimer 0 (createTimer n))).enabled = false ∧
    enableTimer d2 (enableTimer d1 s) = enableTimer d2 s ∧
    (runOnePass id { enableTimer d2 (enableTimer d1 s) with now := s.now + d1 }).fired
      = s.fired ∧
    (runOnePass id { enableTimer d2 (enableTimer d1 s) with now := s.now + d2 }).fired
      = s.fired + 1 := by
  refine ⟨rfl, rfl, rfl, ?_, ?_, rfl, ?_, ?_⟩
  · simp [runOnePass, enableTimer, createTimer]
  · simp [runOnePass, enableTimer, createTimer]
  · have hne : ¬(s.now + d2 ≤ s.now + d1) := by omega
    simp [runOnePass, enableTimer, hne]
  · simp [runOnePass, enableTimer]

/-- Witness for C6 at concrete clock time 0 and deadlines 1 and 2. -/
theorem timer_enable_disable_lifecycle_witness :
    (1 : Nat) < 2 ∧
    ((createTimer 0).enabled = false ∧
      (enableTimer 0 (createTimer 7)).enabled = true ∧
      (enableTimer 0 (createTimer 7)).fired = (createTimer 7).fired ∧
      (runOnePass id (enableTimer 0 (createTimer 0))).fired = 1 ∧
      (runOnePass id (enableTimer 0 (createTimer 0))).enabled = false ∧
      enableTimer 2 (enableTimer 1 (createTimer 7)) = enableTimer 2 (createTimer 7) ∧
      (runOnePass id
          { enableTimer 2 (enableTimer 1 (createTimer 7)) with
            now := (createTimer 7).now + 1 }).fired
        = (createTimer 7).fired ∧
      (runOnePass id
          { enableTimer 2 (enableTimer 1 (createTimer 7)) with
            now := (createTimer 7).now + 2 }).fired
        = (createTimer 7).fired + 1) :=
  ⟨by decide, timer_enable_disable_lifecycle 0 1 2 (createTimer 7) (by decide)⟩

/-- Witness for C8 at the empty queue and a fresh (disabled) timer. -/
theorem empty_clear_and_disabled_disable_noop_witness :
    initialDState.current = [] ∧ (createTimer 0).enabled = false ∧
    (clearDeferredDeleteList initialDState = initialDState ∧
      disableTimer (createTimer 0) = createTimer 0 ∧
      runOnePass id (disableTimer (createTimer 0)) = disableTimer (createTimer 0)) :=
  ⟨rfl, rfl, empty_clear_and_disabled_disable_noop initialDState (createTimer 0) rfl rfl⟩

/-! ## Timer-value conversion: claim -/

/-- C7: for every representable millisecond duration, the conversion produces
seconds = d / 1000 and microseconds = (d % 1000) * 1000; the microsecond field
is always strictly below 1,000,000; both fields stay within the representable
range (no overflow, even at the representable maximum); the pair reconstructs
the duration losslessly at millisecond granularity; and the test vectors of
`TimerImplTest.TimerValueConversion` hold, including the maximum-value one. -/
theorem milliseconds_to_timeval_conversion (d : Nat) (h : d ≤ maxMilliseconds) :
    (millisecondsToTimeval d).1 = d / 1000 ∧
    (millisecondsToTimeval d).2 = d % 1000 * 1000 ∧
    (millisecondsToTimeval d).2 < 1000000 ∧
    (millisecondsToTimeval d).1 ≤ maxMilliseconds ∧
    (millisecondsToTimeval d).2 ≤ maxMilliseconds ∧
    (millisecondsToTimeval d).1 * 1000 + (millisecondsToTimeval d).2 / 1000 = d ∧
    millisecondsToTimeval 0 = (0, 0) ∧
    millisecondsToTimeval 2050 = (2, 50000) ∧
    (millisecondsToTimeval maxMilliseconds).2 = 807000 := by
  have hm : maxMilliseconds = 9223372036854775807 := by norm_num [maxMilliseconds]
  rw [hm] at h
  refine ⟨rfl, rfl, ?_, ?_, ?_, ?_, rfl, by decide, by decide⟩
  · show d % 1000 * 1000 < 1000000
    omega
  · show d / 1000 ≤ maxMilliseconds
    rw [hm]
    omega
  · show d % 1000 * 1000 ≤ maxMilliseconds
    rw [hm]
    omega
  · show d / 1000 * 1000 + d % 1000 * 1000 / 1000 = d
    rw [Nat.mul_div_cancel _ (by norm_num : 0 < 1000)]
    omega

/-- Witness for C7 at the concrete duration 2050 ms. -/
theorem milliseconds_to_timeval_conversion_witness :
    (2050 : Nat) ≤ maxMilliseconds ∧
    ((millisecondsToTimeval 2050).1 = 2050 / 1000 ∧
      (millisecondsToTimeval 2050).2 = 2050 % 1000 * 1000 ∧
      (millisecondsToTimeval 2050).2 < 1000000 ∧
      (millisecondsToTimeval 2050).1 ≤ maxMilliseconds ∧
      (millisecondsToTimeval 2050).2 ≤ maxMilliseconds ∧
      (millisecondsToTimeval 2050).1 * 1000 + (millisecondsToTimeval 2050).2 / 1000 = 2050 ∧
      millisecondsToTimeval 0 = (0, 0) ∧
      millisecondsToTimeval 2050 = (2, 50000) ∧
      (millisecondsToTimeval maxMilliseconds).2 = 807000) :=
  ⟨by decide, milliseconds_to_timeval_conversion 2050 (by decide)⟩

/-! ## Dispatcher stats: claim -/

/-- C9 counterexample: with prefix "test." the first registered series is
named "test.dispatcher.loop_duration_us" (as the test
`DispatcherImplTest.InitializeStats` expects), which is not the plain
concatenation of the prefix with the suffix `loop_duration_us` that the claim
states. -/
theorem stats_names_not_plain_prefix_cex :
    initializeStats "test."
      = ["test.dispatcher.loop_duration_us", "test.dispatcher.poll_delay_us"] ∧
    ("test.dispatcher.loop_duration_us" : String) ≠ "test." ++ "loop_duration_us" :=
  ⟨rfl, by decide⟩

/-- C9 (amended): `initializeStats` registers exactly two histogram series,
named by inserting the fixed component "dispatcher." between the caller's
prefix and the suffixes `loop_duration_us` and `poll_delay_us`, and no other
series; for no prefix do the produced names equal the plain
prefix-plus-suffix concatenations. -/
theorem stats_registers_two_dispatcher_series (pfx : String) :
    initializeStats pfx
      = [pfx ++ "dispatcher." ++ "loop_duration_us", pfx ++ "dispatcher." ++ "poll_delay_us"] ∧
    (initializeStats pfx).length = 2 ∧
    statName pfx "loop_duration_us" ≠ pfx ++ "loop_duration_us" ∧
    statName pfx "poll_delay_us" ≠ pfx ++ "poll_delay_us" := by
  refine ⟨rfl, rfl, ?_, ?_⟩
  · intro heq
    have := congrArg String.length heq
    simp [statName, String.length_append] at this
    exact absurd this (by decide)
  · intro heq
    have := congrArg String.length heq
    simp [statName, String.length_append] at this
    exact absurd this (by decide)

end EventCore

namespace IntegrationUtil

/-! ## BufferingStreamDecoder: lemmas and claim -/

/-- Once the decoder is complete, every further decode call violates the
not-complete assertion. -/
theorem stepEv_complete_none (e : DecodeEv) (s : DecoderState) (h : s.complete = true) :
    stepEv e s = none := by
  cases e <;> simp [stepEv, decodeHeaders, decodeData, h]

/-- Splitting a run of decoder calls at an arbitrary point. -/
theorem runEvents_append (tr1 tr2 : List DecodeEv) (s : DecoderState) :
    runEvents (tr1 ++ tr2) s = (runEvents tr1 s).bind fun s1 => runEvents tr2 s1 := by
  induction tr1 generalizing s with
  | nil => simp [runEvents]
  | cons e rest ih =>
    simp only [List.cons_append, runEvents]
    cases stepEv e s <;> simp [ih]

/-- A successful decode call requires a not-complete decoder and either leaves
it not complete with the callback count unchanged, or completes it and invokes
the callback exactly once. -/
theorem stepEv_some_cases (e : DecodeEv) (s s1 : DecoderState) (h : stepEv e s = some s1) :
    s.complete = false ∧
    ((s1.complete = false ∧ s1.cbCount = s.cbCount) ∨
      (s1.complete = true ∧ s1.cbCount = s.cbCount + 1)) := by
  cases e with
  | headers hd es =>
    cases hc : s.complete with
    | true => simp [stepEv, decodeHeaders, hc] at h
    | false =>
      cases es with
      | false =>
        simp [stepEv, decodeHeaders, hc] at h
        subst h
        exact ⟨rfl, Or.inl ⟨rfl, rfl⟩⟩
      | true =>
        simp [stepEv, decodeHeaders, onComplete, hc] at h
        subst h
        exact ⟨rfl, Or.inr ⟨rfl, rfl⟩⟩
  | data d es =>
    cases hc : s.complete with
    | true => simp [stepEv, decodeData, hc] at h
    | false =>
      cases es with
      | false =>
        simp [stepEv, decodeData, hc] at h
        subst h
        exact ⟨rfl, Or.inl ⟨rfl, rfl⟩⟩
      | true =>
        simp [stepEv, decodeData, onComplete, hc] at h
        subst h
        exact ⟨rfl, Or.inr ⟨rfl, rfl⟩⟩

/-- A completed decoder admits no further successful run: only the empty run
succeeds, unchanged. -/
theorem runEvents_complete_stuck (tr : List DecodeEv) (s s1 : DecoderState)
    (hc : s.complete = true) (h : runEvents tr s = some s1) : s1 = s := by
  cases tr with
  | nil =>
    simp [runEvents] at h
    exact h.symm
  | cons e rest => simp [runEvents, stepEv_complete_none e s hc] at h

/-- The reachable-state invariant of the decoder: starting not complete with
the callback never invoked, every successful run ends either not complete with
zero invocations or complete with exactly one. -/
theorem runEvents_cb_invariant (tr : List DecodeEv) (s s1 : DecoderState)
    (hc : s.complete = false) (hn : s.cbCount = 0)
    (h : runEvents tr s = some s1) :
    (s1.complete = false ∧ s1.cbCount = 0) ∨ (s1.complete = true ∧ s1.cbCount = 1) := by
  induction tr generalizing s with
  | nil =>
    simp [runEvents] at h
    subst h
    exact Or.inl ⟨hc, hn⟩
  | cons e rest ih =>
    cases hstep : stepEv e s with
    | none => simp [runEvents, hstep] at h
    | some s2 =>
      simp only [runEvents, hstep] at h
      rcases stepEv_some_cases e s s2 hstep with ⟨_, hcase⟩
      rcases hcase with ⟨h2c, h2n⟩ | ⟨h2c, h2n⟩
      · exact ih s2 h2c (by omega) h
      · have hs1 := runEvents_complete_stuck rest s2 s1 h2c h
        subst hs1
        exact Or.inr ⟨h2c, by omega⟩

/-- C10: over any sequence of decode calls accepted from a fresh decoder, the
on-complete callback has been invoked at most once, it has been invoked
exactly once precisely when some call carried `end_stream = true` (the first
such call completes the decoder), and once complete, any further decodeHeaders
or decodeData call violates the not-complete assertion — so the callback can
never fire twice. -/
theorem decoder_on_complete_exactly_once (tr tr2 : List DecodeEv) (e : DecodeEv)
    (s : DecoderState) (h : runEvents tr initDecoder = some s) :
    s.cbCount ≤ 1 ∧
    (s.cbCount = 1 ↔ s.complete = true) ∧
    (s.complete = true → runEvents (tr ++ e :: tr2) initDecoder = none) := by
  have inv := runEvents_cb_invariant tr initDecoder s rfl rfl h
  refine ⟨?_, ?_, ?_⟩
  · rcases inv with ⟨_, h1⟩ | ⟨_, h1⟩ <;> omega
  · rcases inv with ⟨h0, h1⟩ | ⟨h0, h1⟩ <;> simp [h0, h1]
  · intro hcomp
    rw [runEvents_append, h]
    simp [runEvents, stepEv_complete_none e s hcomp]

/-- Witness for C10 at a concrete accepted call sequence ending in an
end-stream data call. -/
theorem decoder_on_complete_exactly_once_witness :
    runEvents [DecodeEv.headers 7 false, DecodeEv.data "x" true] initDecoder
      = some { complete := true, headers := some 7, body := "x", cbCount := 1 } ∧
    (({ complete := true, headers := some 7, body := "x", cbCount := 1 } :
        DecoderState).cbCount ≤ 1 ∧
      (({ complete := true, headers := some 7, body := "x", cbCount := 1 } :
          DecoderState).cbCount = 1 ↔
        ({ complete := true, headers := some 7, body := "x", cbCount := 1 } :
          DecoderState).complete = true) ∧
      (({ complete := true, headers := some 7, body := "x", cbCount := 1 } :
          DecoderState).complete = true →
        runEvents
            ([DecodeEv.headers 7 false, DecodeEv.data "x" true]
              ++ DecodeEv.data "y" true :: []) initDecoder
          = none)) :=
  ⟨by decide,
    decoder_on_complete_exactly_once [DecodeEv.headers 7 false, DecodeEv.data "x" true]
      [] (DecodeEv.data "y" true)
      { complete := true, headers := some 7, body := "x", cbCount := 1 } (by decide)⟩

end IntegrationUtil
